import Mathlib

/-!
A shallow embedding of the medialib media-registry / playlist-engine logic
(`src/models.py`, `src/app.py`, `src/api.py`, `src/utils.py`).

Database rows become Lean structures, the SQLAlchemy session becomes an
explicit record of row lists, and each HTTP handler becomes a function from
the request parameters and the current state to a result paired with the
next state.  The authenticated identity (`current_user.id`) is passed as an
explicit `uid` argument; handlers decorated with `login_required` /
`api_login_required` are modelled only for resolved identities.  Timestamp
columns (`Media.upload_date`) are omitted: no behaviour below reads them.
-/

namespace Medialib

/-- A `media` table row (`models.py`, class `Media`). -/
structure MediaRow where
  id : Nat
  title : String
  description : String
  tags : String
  filename : String
  file_type : String
  category : String
  subcategory : String
  user_id : Nat
  deriving Repr, DecidableEq

/-- A `playlist` table row (`models.py`, class `Playlist`). -/
structure PlaylistRow where
  id : Nat
  name : String
  description : String
  playlist_type : String
  user_id : Nat
  deriving Repr, DecidableEq

/-- A `playlist_media` join-table row (`models.py`, class `PlaylistMedia`). -/
structure PlaylistMediaRow where
  id : Nat
  playlist_id : Nat
  media_id : Nat
  order_index : Nat
  deriving Repr, DecidableEq

/-- The relational state: the three tables the claims touch. -/
structure DB where
  media : List MediaRow
  playlists : List PlaylistRow
  playlist_media : List PlaylistMediaRow
  deriving Repr, DecidableEq

/-- The full system state: database plus the flat file-store directory,
modelled as the list of stored filenames. -/
structure Sys where
  dbS : DB
  files : List String
  deriving Repr, DecidableEq

/-- The error taxonomy of the spec, as surfaced by the handlers: 404s become
`notFound`, the add-media type conflict 400 becomes `typeMismatch`, other
400s become `validationError` or `unsupportedFileType`, file-system failures
become `storageError`, and the browser-surface "You are not authorized"
flash-and-redirect becomes `forbiddenRedirect`. -/
inductive Err where
  | notFound
  | validationError
  | typeMismatch
  | unsupportedFileType
  | storageError
  | forbiddenRedirect
  deriving Repr, DecidableEq

/-- Decidable equality of handler results, used to evaluate the embedding
at concrete inputs. -/
instance {ε α : Type} [DecidableEq ε] [DecidableEq α] : DecidableEq (Except ε α) := fun a b =>
  match a, b with
  | .ok x, .ok y =>
    if h : x = y then isTrue (by rw [h]) else isFalse (fun hc => h (by injection hc))
  | .error e, .error f =>
    if h : e = f then isTrue (by rw [h]) else isFalse (fun hc => h (by injection hc))
  | .ok _, .error _ => isFalse (fun hc => Except.noConfusion hc)
  | .error _, .ok _ => isFalse (fun hc => Except.noConfusion hc)

/-- `Playlist.query.filter_by(id=pid, user_id=uid).first()`. -/
def findPlaylist (pid uid : Nat) (s : DB) : Option PlaylistRow :=
  s.playlists.find? (fun p => p.id == pid && p.user_id == uid)

/-- `Media.query.get(mid)` — lookup by primary key only. -/
def getMedia (mid : Nat) (s : DB) : Option MediaRow :=
  s.media.find? (fun m => m.id == mid)

/-- `Media.query.filter_by(id=mid, user_id=uid).first()`. -/
def findOwnedMedia (mid uid : Nat) (s : DB) : Option MediaRow :=
  s.media.find? (fun m => m.id == mid && m.user_id == uid)

/-- `PlaylistMedia.query.filter_by(playlist_id=pid, media_id=mid).first()`. -/
def findPM (pid mid : Nat) (rows : List PlaylistMediaRow) : Option PlaylistMediaRow :=
  rows.find? (fun r => r.playlist_id == pid && r.media_id == mid)

/-- `db.session.query(db.func.max(PlaylistMedia.order_index)).filter_by(playlist_id=pid).scalar()`
followed by `(max_order or 0)`: SQL `MAX` over no rows is NULL, which the
`or 0` collapses to 0 (as it also does a genuine maximum of 0). -/
def maxOrder (pid : Nat) (rows : List PlaylistMediaRow) : Nat :=
  ((rows.filter (fun r => r.playlist_id == pid)).map (fun r => r.order_index)).foldr max 0

/-- The autoincrement primary key for a fresh `playlist_media` row. -/
def freshPMId (rows : List PlaylistMediaRow) : Nat :=
  (rows.map (fun r => r.id)).foldr max 0 + 1

/-- Success payload of the add-media endpoint: both constructors are HTTP 200. -/
inductive AddOutcome where
  | added
  | alreadyInPlaylist
  deriving Repr, DecidableEq

/-- `PlaylistAddMedia.post` (`api.py` lines 330–356); the browser handler
`add_media_to_playlist` (`app.py` lines 333–376) runs the same checks in the
same order with flash messages in place of JSON.  Lookup order: owned
playlist (404), media by id only (404), type-mismatch 400, duplicate-pair
no-op 200, else insert at `max order_index + 1`. -/
def add_media_to_playlist (uid pid mid : Nat) (s : DB) : Except Err AddOutcome × DB :=
  match findPlaylist pid uid s with
  | none => (.error .notFound, s)
  | some pl =>
    match getMedia mid s with
    | none => (.error .notFound, s)
    | some m =>
      if pl.playlist_type ≠ "all" ∧ m.file_type ≠ pl.playlist_type then
        (.error .typeMismatch, s)
      else if (findPM pid mid s.playlist_media).isSome then
        (.ok .alreadyInPlaylist, s)
      else
        let next_order := maxOrder pid s.playlist_media + 1
        let row : PlaylistMediaRow :=
          { id := freshPMId s.playlist_media, playlist_id := pid,
            media_id := mid, order_index := next_order }
        (.ok .added, { s with playlist_media := s.playlist_media ++ [row] })

/-- `db.session.delete(row)` for the first `playlist_media` row matching the
(playlist, media) pair. -/
def erasePM (pid mid : Nat) : List PlaylistMediaRow → List PlaylistMediaRow
  | [] => []
  | r :: rs =>
    if r.playlist_id == pid && r.media_id == mid then rs
    else r :: erasePM pid mid rs

/-- `PlaylistRemoveMedia.post` (`api.py` lines 365–380): owned playlist
lookup (404), pair lookup (404), delete. -/
def remove_media_from_playlist (uid pid mid : Nat) (s : DB) : Except Err Unit × DB :=
  match findPlaylist pid uid s with
  | none => (.error .notFound, s)
  | some _ =>
    match findPM pid mid s.playlist_media with
    | none => (.error .notFound, s)
    | some _ =>
      (.ok (), { s with playlist_media := erasePM pid mid s.playlist_media })

/-- Mutate the first `playlist_media` row with the given pair, setting its
`order_index`; `none` when no row matches (the rollback arm of the reorder loop). -/
def updateFirstPM (pid mid idx : Nat) : List PlaylistMediaRow → Option (List PlaylistMediaRow)
  | [] => none
  | r :: rs =>
    if r.playlist_id == pid && r.media_id == mid then
      some ({ r with order_index := idx } :: rs)
    else
      (updateFirstPM pid mid idx rs).map (fun rs2 => r :: rs2)

/-- The `for index, media_id in enumerate(media_ids_order)` loop of
`reorder_media_in_playlist` (`app.py` lines 413–420): the row of each listed id
gets `order_index := index`; a missing id aborts the whole pass. -/
def reorderLoop (pid idx : Nat) (ids : List Nat) (rows : List PlaylistMediaRow) :
    Option (List PlaylistMediaRow) :=
  match ids with
  | [] => some rows
  | mid :: rest =>
    match updateFirstPM pid mid idx rows with
    | none => none
    | some rows2 => reorderLoop pid (idx + 1) rest rows2

/-- `reorder_media_in_playlist` (`app.py` lines 402–428).  The owned-playlist
lookup 404s first; `if not media_ids_order or not isinstance(...)` rejects a
missing, non-list, or *empty* `media_ids` payload with 400; the update loop
runs inside a transaction whose rollback (on an unknown id) restores every
`order_index`, so the state is returned unchanged on that 400 as well. -/
def reorder_media_in_playlist (uid pid : Nat) (ids : List Nat) (s : DB) :
    Except Err Unit × DB :=
  match findPlaylist pid uid s with
  | none => (.error .notFound, s)
  | some _ =>
    if ids.isEmpty then (.error .validationError, s)
    else
      match reorderLoop pid 0 ids s.playlist_media with
      | none => (.error .validationError, s)
      | some rows => (.ok (), { s with playlist_media := rows })

/-! ### Filenames and extensions (`utils.py`, werkzeug `secure_filename`) -/

/-- Python `str.lower()` restricted to its ASCII action (`Char.toLower`),
which is all the extension and pattern strings below exercise. -/
def toLowerStr (s : String) : String := String.mk (s.data.map Char.toLower)

/-- The portion of the path after the last `/` separator (posix `os.sep`). -/
def afterLastSep (cs : List Char) : List Char :=
  (cs.reverse.takeWhile (fun c => c ≠ '/')).reverse

/-- Split a character list around its *last* `.`: `some (before, after)`,
or `none` when no dot occurs. -/
def rsplitLastDot : List Char → Option (List Char × List Char)
  | [] => none
  | c :: cs =>
    match rsplitLastDot cs with
    | some (b, a) => some (c :: b, a)
    | none => if c = '.' then some ([], cs) else none

/-- `os.path.splitext(s)[1]`: the extension (with its dot) taken from the
last dot of the basename, empty when the basename has no dot or only
leading dots (so `.txt` has no extension, per Python). -/
def splitextExt (s : String) : String :=
  let base := afterLastSep s.data
  match rsplitLastDot base with
  | none => ""
  | some (pre, post) =>
    if pre.all (fun c => c = '.') then "" else String.mk ('.' :: post)

def ALLOWED_EXTENSIONS : List String :=
  [".jpg", ".jpeg", ".png", ".gif", ".mp3", ".wav", ".mp4", ".mov", ".pdf", ".docx", ".txt"]

/-- `allowed_file` (`utils.py` lines 5–7; duplicated in `app.py` lines 60–62):
the raw upload filename must contain a dot and its lower-cased extension must
be in the fixed allow-list. -/
def allowed_file (filename : String) : Bool :=
  filename.data.contains '.' &&
    ALLOWED_EXTENSIONS.contains (toLowerStr (splitextExt filename))

/-- `get_file_type` (`utils.py` lines 9–19; duplicated in `app.py`). -/
def get_file_type (filename : String) : String :=
  let ext := toLowerStr (splitextExt filename)
  if [".jpg", ".jpeg", ".png", ".gif"].contains ext then "image"
  else if [".mp3", ".wav"].contains ext then "audio"
  else if [".mp4", ".mov"].contains ext then "video"
  else if [".pdf", ".docx", ".txt"].contains ext then "ebook"
  else "other"

/-- Python `str.split()` whitespace (space, tab, newline, return, vertical
tab, form feed). -/
def isPySpace (c : Char) : Bool :=
  c = ' ' || c = '\t' || c = '\n' || c = '\x0d' || c = '\x0b' || c = '\x0c'

/-- Python `str.strip()`: drop leading and trailing whitespace. -/
def pyStrip (s : String) : String :=
  String.mk (((s.data.dropWhile isPySpace).reverse.dropWhile isPySpace).reverse)

/-- Python `str.split(',')` on the underlying characters. -/
def splitOnComma : List Char → List (List Char)
  | [] => [[]]
  | x :: xs =>
    let rest := splitOnComma xs
    if x = ',' then [] :: rest
    else
      match rest with
      | [] => [[x]]
      | h :: t => (x :: h) :: t

/-- Maximal runs of non-whitespace characters, empties dropped
(Python `str.split()` with no argument). -/
def splitWsAux : List Char → List Char → List (List Char)
  | [], acc => if acc.isEmpty then [] else [acc.reverse]
  | c :: cs, acc =>
    if isPySpace c then
      if acc.isEmpty then splitWsAux cs [] else acc.reverse :: splitWsAux cs []
    else splitWsAux cs (c :: acc)

def splitWs (cs : List Char) : List (List Char) := splitWsAux cs []

/-- Characters kept by the werkzeug filename filter (ASCII letters, digits, underscore, dot, hyphen). -/
def keepChar (c : Char) : Bool :=
  (c ≥ 'A' && c ≤ 'Z') || (c ≥ 'a' && c ≤ 'z') || (c ≥ '0' && c ≤ '9') ||
    c = '_' || c = '.' || c = '-'

def stripDotUnderscore (c : Char) : Bool := c = '.' || c = '_'

/-- werkzeug `secure_filename` on a posix host: drop non-ASCII characters
(the NFKD normalization is the identity on the ASCII text this model covers),
turn `/` into spaces, join the whitespace-split words with `_`, drop every
character outside `[A-Za-z0-9_.-]`, and strip leading/trailing `.`/`_`.
The Windows reserved-name branch is dead on posix and not modelled. -/
def secure_filename (f : String) : String :=
  let ascii := f.data.filter (fun c => c.toNat < 128)
  let repl := ascii.map (fun c => if c = '/' then ' ' else c)
  let joined := List.intercalate ['_'] (splitWs repl)
  let kept := joined.filter keepChar
  String.mk (((kept.dropWhile stripDotUnderscore).reverse.dropWhile stripDotUnderscore).reverse)

/-! ### Media registry handlers -/

/-- Autoincrement primary key for a fresh `media` row. -/
def freshMediaId (rows : List MediaRow) : Nat :=
  (rows.map (fun m => m.id)).foldr max 0 + 1

/-- The REST upload request (`MediaList.post`): `title` is a required parser
argument (a missing one 400s before the handler body runs, leaving every
state untouched), the other text fields default to `""`, which also models
an absent (falsy `None`) argument in the `or`-defaulting below.  `hasFile`
is whether `request.files` carries a `file` part. -/
structure ApiUploadReq where
  title : String
  description : String := ""
  tags : String := ""
  file_type : String := ""
  category : String := ""
  subcategory : String := ""
  hasFile : Bool := true
  filename : String
  deriving Repr, DecidableEq

/-- `MediaList.post` (`api.py` lines 137–179).  `freshHex` stands for the
`uuid4().hex` draw.  Checks in source order: file part present (400), a
non-empty client filename (400), `allowed_file` on the *raw* filename; only
then is the file saved (the filename enters `files`) and the row inserted.
Note: no category/subcategory validation is performed on this path. -/
def MediaList_post (uid : Nat) (freshHex : String) (r : ApiUploadReq) (s : Sys) :
    Except Err MediaRow × Sys :=
  if ¬ r.hasFile then (.error .validationError, s)
  else if r.filename = "" then (.error .validationError, s)
  else if allowed_file r.filename then
    let original := secure_filename r.filename
    let ext := toLowerStr (splitextExt original)
    let new_filename := freshHex ++ ext
    let files2 := s.files ++ [new_filename]
    let ft := if r.file_type = "" then get_file_type original else r.file_type
    let cat := if r.category = "" then get_file_type original else r.category
    let row : MediaRow :=
      { id := freshMediaId s.dbS.media, title := r.title,
        description := r.description, tags := r.tags, filename := new_filename,
        file_type := ft, category := cat, subcategory := r.subcategory,
        user_id := uid }
    (.ok row, { dbS := { s.dbS with media := s.dbS.media ++ [row] }, files := files2 })
  else (.error .unsupportedFileType, s)

def valid_categories : List String :=
  ["image", "audio", "video", "ebook", "other", ""]

def valid_subcategories : List String :=
  ["songs", "movies", "short_clip", "music", "study", "reference", "fiction", "non_fiction", ""]

/-- POST fields of the browser upload form (`upload_form`). -/
structure WebUploadReq where
  title : String := ""
  description : String := ""
  tags : String := ""
  category : String := ""
  subcategory : String := ""
  hasFile : Bool := true
  filename : String
  deriving Repr, DecidableEq

/-- `upload_form`, POST branch (`app.py` lines 111–176).  Source order: file
part (400), non-empty filename (400), `allowed_file` (400), non-empty title
(400), category allow-list (400), subcategory allow-list (400); only then is
the file saved and the row committed. -/
def upload_form (uid : Nat) (freshHex : String) (r : WebUploadReq) (s : Sys) :
    Except Err MediaRow × Sys :=
  let title := pyStrip r.title
  let category := pyStrip r.category
  let subcategory := pyStrip r.subcategory
  if ¬ r.hasFile then (.error .validationError, s)
  else if r.filename = "" then (.error .validationError, s)
  else if ¬ allowed_file r.filename then (.error .unsupportedFileType, s)
  else if title = "" then (.error .validationError, s)
  else if category ≠ "" ∧ ¬ valid_categories.contains category then
    (.error .validationError, s)
  else if subcategory ≠ "" ∧ ¬ valid_subcategories.contains subcategory then
    (.error .validationError, s)
  else
    let original := secure_filename r.filename
    let ext := toLowerStr (splitextExt original)
    let new_filename := freshHex ++ ext
    let files2 := s.files ++ [new_filename]
    let ft := get_file_type original
    let row : MediaRow :=
      { id := freshMediaId s.dbS.media, title := title,
        description := pyStrip r.description, tags := pyStrip r.tags,
        filename := new_filename, file_type := ft,
        category := if category = "" then ft else category,
        subcategory := subcategory, user_id := uid }
    (.ok row, { dbS := { s.dbS with media := s.dbS.media ++ [row] }, files := files2 })

/-- `MediaItem.get` (`api.py` lines 187–192): one query filtered by id *and*
owner; a miss for either reason is the same 404. -/
def MediaItem_get (uid mid : Nat) (s : DB) : Except Err MediaRow :=
  match findOwnedMedia mid uid s with
  | some m => .ok m
  | none => .error .notFound

/-- The JSON payload of `MediaItem.put`: `data.get(k, current)` per field. -/
structure MediaUpdate where
  title : Option String := none
  description : Option String := none
  tags : Option String := none
  category : Option String := none
  subcategory : Option String := none
  deriving Repr, DecidableEq

def applyMediaUpdate (u : MediaUpdate) (m : MediaRow) : MediaRow :=
  { m with
    title := u.title.getD m.title
    description := u.description.getD m.description
    tags := u.tags.getD m.tags
    category := u.category.getD m.category
    subcategory := u.subcategory.getD m.subcategory }

/-- Mutate the first `media` row matching id and owner. -/
def mutateFirstMedia (mid uid : Nat) (f : MediaRow → MediaRow) :
    List MediaRow → List MediaRow
  | [] => []
  | m :: ms =>
    if m.id == mid && m.user_id == uid then f m :: ms
    else m :: mutateFirstMedia mid uid f ms

/-- `MediaItem.put` (`api.py` lines 198–211): owner-scoped lookup (404), then
field-wise `data.get(k, current)` update. -/
def MediaItem_put (uid mid : Nat) (u : MediaUpdate) (s : DB) :
    Except Err MediaRow × DB :=
  match findOwnedMedia mid uid s with
  | none => (.error .notFound, s)
  | some m =>
    (.ok (applyMediaUpdate u m),
     { s with media := mutateFirstMedia mid uid (applyMediaUpdate u) s.media })

/-- `db.session.delete` of a `media` row by primary key. -/
def eraseFirstMediaRow (theId : Nat) : List MediaRow → List MediaRow
  | [] => []
  | m :: ms => if m.id == theId then ms else m :: eraseFirstMediaRow theId ms

/-- `MediaItem.delete` (`api.py` lines 216–233).  `removeFails` models which
`os.remove` calls would raise (file-system nondeterminism).  Owner-scoped
lookup (404); if the backing file exists, remove it — a failure aborts with
500 and the row survives; a file already absent is only logged and the row
is deleted anyway. -/
def MediaItem_delete (removeFails : String → Bool) (uid mid : Nat) (s : Sys) :
    Except Err Unit × Sys :=
  match findOwnedMedia mid uid s.dbS with
  | none => (.error .notFound, s)
  | some m =>
    if s.files.contains m.filename then
      if removeFails m.filename then (.error .storageError, s)
      else
        (.ok (),
         { dbS := { s.dbS with media := eraseFirstMediaRow m.id s.dbS.media },
           files := s.files.erase m.filename })
    else
      (.ok (), { s with dbS := { s.dbS with media := eraseFirstMediaRow m.id s.dbS.media } })

/-- `media_page` (`app.py` lines 180–183): `Media.query.get_or_404(media_id)`
with *no* ownership check and no login requirement — any requester receives
the row of any existing media id. -/
def media_page (mid : Nat) (s : DB) : Except Err MediaRow :=
  match getMedia mid s with
  | some m => .ok m
  | none => .error .notFound

/-- The access-control gates of `edit_media` (`app.py` lines 186–193), shared
by its GET and POST branches: `get_or_404` by id only, then a non-owner is
answered with a "not authorized" flash and a redirect to the media page —
a response distinct from 404. -/
def edit_media (uid mid : Nat) (s : DB) : Except Err MediaRow :=
  match getMedia mid s with
  | none => .error .notFound
  | some m => if m.user_id ≠ uid then .error .forbiddenRedirect else .ok m

/-- `delete_media_page` (`app.py` lines 233–267): `get_or_404` by id only,
non-owner flash-and-redirect, then the same file-before-row deletion as the
REST handler. -/
def delete_media_page (removeFails : String → Bool) (uid mid : Nat) (s : Sys) :
    Except Err Unit × Sys :=
  match getMedia mid s.dbS with
  | none => (.error .notFound, s)
  | some m =>
    if m.user_id ≠ uid then (.error .forbiddenRedirect, s)
    else if s.files.contains m.filename then
      if removeFails m.filename then (.error .storageError, s)
      else
        (.ok (),
         { dbS := { s.dbS with media := eraseFirstMediaRow m.id s.dbS.media },
           files := s.files.erase m.filename })
    else
      (.ok (), { s with dbS := { s.dbS with media := eraseFirstMediaRow m.id s.dbS.media } })

/-! ### Playlist item handlers (`api.py`) -/

/-- `PlaylistItem.get` (`api.py` lines 286–291). -/
def PlaylistItem_get (uid pid : Nat) (s : DB) : Except Err PlaylistRow :=
  match findPlaylist pid uid s with
  | some p => .ok p
  | none => .error .notFound

structure PlaylistUpdate where
  name : Option String := none
  description : Option String := none
  playlist_type : Option String := none
  deriving Repr, DecidableEq

def applyPlaylistUpdate (u : PlaylistUpdate) (p : PlaylistRow) : PlaylistRow :=
  { p with
    name := u.name.getD p.name
    description := u.description.getD p.description
    playlist_type := u.playlist_type.getD p.playlist_type }

def mutateFirstPlaylist (pid uid : Nat) (f : PlaylistRow → PlaylistRow) :
    List PlaylistRow → List PlaylistRow
  | [] => []
  | p :: ps =>
    if p.id == pid && p.user_id == uid then f p :: ps
    else p :: mutateFirstPlaylist pid uid f ps

/-- `PlaylistItem.put` (`api.py` lines 297–308): owner-scoped lookup (404),
field-wise update — the new `playlist_type` is *not* validated against the
members. -/
def PlaylistItem_put (uid pid : Nat) (u : PlaylistUpdate) (s : DB) :
    Except Err PlaylistRow × DB :=
  match findPlaylist pid uid s with
  | none => (.error .notFound, s)
  | some p =>
    (.ok (applyPlaylistUpdate u p),
     { s with playlists := mutateFirstPlaylist pid uid (applyPlaylistUpdate u) s.playlists })

def eraseFirstPlaylistRow (theId : Nat) : List PlaylistRow → List PlaylistRow
  | [] => []
  | p :: ps => if p.id == theId then ps else p :: eraseFirstPlaylistRow theId ps

/-- `PlaylistItem.delete` (`api.py` lines 313–321): owner-scoped lookup
(404), then delete; the `cascade="all, delete-orphan"` relationship removes
the association rows of the playlist with it. -/
def PlaylistItem_delete (uid pid : Nat) (s : DB) : Except Err Unit × DB :=
  match findPlaylist pid uid s with
  | none => (.error .notFound, s)
  | some p =>
    (.ok (),
     { s with
       playlists := eraseFirstPlaylistRow p.id s.playlists
       playlist_media := s.playlist_media.filter (fun r => ¬ r.playlist_id == pid) })

/-! ### The owner-scoped media listing (`MediaList.get`) -/

/-- All suffixes of a character list, longest first. -/
def suffixes : List Char → List (List Char)
  | [] => [[]]
  | c :: cs => (c :: cs) :: suffixes cs

/-- SQL `LIKE` pattern matching: `%` matches any run, `_` any single
character, anything else itself. -/
def likeMatch : List Char → List Char → Bool
  | [], s => s.isEmpty
  | '%' :: ps, s => (suffixes s).any (fun s2 => likeMatch ps s2)
  | '_' :: ps, s =>
    match s with
    | [] => false
    | _ :: s2 => likeMatch ps s2
  | c :: ps, s =>
    match s with
    | [] => false
    | c2 :: s2 => c2 == c && likeMatch ps s2

/-- The default `LIKE` of SQLite, which compares ASCII letters case-insensitively. -/
def sqlLike (pattern s : String) : Bool :=
  likeMatch (pattern.data.map Char.toLower) (s.data.map Char.toLower)

/-- Query-string arguments of `MediaList.get`; `""` models an absent (falsy)
argument, `limit`/`offset` carry the parser defaults. -/
structure ListArgs where
  title : String := ""
  tags : String := ""
  file_type : String := ""
  category : String := ""
  subcategory : String := ""
  limit : Nat := 20
  offset : Nat := 0
  deriving Repr, DecidableEq

/-- `[t.strip() for t in tags.split(',') if t.strip()]`. -/
def splitTags (s : String) : List String :=
  (((splitOnComma s.data).map String.mk).map pyStrip).filter (fun t => t ≠ "")

/-- `MediaList.get` (`api.py` lines 112–132): rows of the requesting user,
then conjoined filters.  The title pattern is reproduced from source line
118, percent, the title argument, percent, then a stray trailing space that
is part of the `LIKE` pattern; each tag token filters with a
percent-delimited pattern; the remaining filters are
SQL equality; finally `offset` then `limit` paging. -/
def MediaList_get (uid : Nat) (a : ListArgs) (s : DB) : List MediaRow :=
  let q0 := s.media.filter (fun m => m.user_id == uid)
  let q1 := if a.title ≠ "" then
      q0.filter (fun m => sqlLike ("%" ++ a.title ++ "% ") m.title)
    else q0
  let q2 := if a.tags ≠ "" then
      let tl := splitTags a.tags
      if ¬ tl.isEmpty then
        q1.filter (fun m => tl.any (fun t => sqlLike ("%" ++ t ++ "%") m.tags))
      else q1
    else q1
  let q3 := if a.file_type ≠ "" then q2.filter (fun m => m.file_type == a.file_type) else q2
  let q4 := if a.category ≠ "" then q3.filter (fun m => m.category == a.category) else q3
  let q5 := if a.subcategory ≠ "" then q4.filter (fun m => m.subcategory == a.subcategory) else q4
  (q5.drop a.offset).take a.limit

/-! ### Derived notions used by the properties -/

/-- The (playlist, media) pairs of the association rows, in row order. -/
def pmPairs (rows : List PlaylistMediaRow) : List (Nat × Nat) :=
  rows.map (fun r => (r.playlist_id, r.media_id))

/-- The `order_index` values within one playlist, in row order. -/
def ordersIn (pid : Nat) (rows : List PlaylistMediaRow) : List Nat :=
  (rows.filter (fun r => r.playlist_id == pid)).map (fun r => r.order_index)

/-- The two intended `playlist_media` invariants: each (playlist, media)
pair occurs at most once, and within each playlist the `order_index` values
are pairwise distinct. -/
def PMInv (rows : List PlaylistMediaRow) : Prop :=
  (pmPairs rows).Nodup ∧ ∀ pid, (ordersIn pid rows).Nodup

/-- How many association rows carry a given (playlist, media) pair. -/
def countPair (pid mid : Nat) (rows : List PlaylistMediaRow) : Nat :=
  (rows.filter (fun r => r.playlist_id == pid && r.media_id == mid)).length

/-- The id list covers every current member of the playlist. -/
def coversMembers (pid : Nat) (ids : List Nat) (rows : List PlaylistMediaRow) : Prop :=
  ∀ r ∈ rows, r.playlist_id = pid → r.media_id ∈ ids

/-- Index of the *last* occurrence of `m` in `ids` (0 when absent; only
meaningful under `m ∈ ids`). -/
def lastIdx (m : Nat) : List Nat → Nat
  | [] => 0
  | _ :: rest => if m ∈ rest then lastIdx m rest + 1 else 0

/-- Pointwise effect of one `updateFirstPM` pass when pairs are unique. -/
def setIdx (pid mid idx : Nat) (r : PlaylistMediaRow) : PlaylistMediaRow :=
  if r.playlist_id == pid && r.media_id == mid then { r with order_index := idx } else r

/-- Pointwise effect of a whole successful reorder pass when pairs are
unique: a member of the playlist listed in `ids` ends at `base` plus the
index of its last occurrence; every other row is untouched. -/
def applyReorder (pid base : Nat) (ids : List Nat) (r : PlaylistMediaRow) : PlaylistMediaRow :=
  if r.playlist_id == pid ∧ r.media_id ∈ ids then
    { r with order_index := base + lastIdx r.media_id ids }
  else r

/-- The association row AddMedia inserts on its success path. -/
def newPMRow (pid mid : Nat) (rows : List PlaylistMediaRow) : PlaylistMediaRow :=
  { id := freshPMId rows
    playlist_id := pid
    media_id := mid
    order_index := maxOrder pid rows + 1 }

/-! ### Concrete fixtures used to witness the theorems -/

/-- An audio media row owned by user 1. -/
def exMediaA : MediaRow := ⟨1, "Song A", "", "rock", "aa.mp3", "audio", "audio", "", 1⟩

/-- A second audio media row owned by user 1. -/
def exMediaB : MediaRow := ⟨2, "Song B", "", "pop", "bb.mp3", "audio", "audio", "", 1⟩

/-- A video media row owned by user 2. -/
def exMediaV : MediaRow := ⟨3, "Clip", "", "", "cc.mp4", "video", "video", "", 2⟩

/-- An audio playlist owned by user 1. -/
def exPlaylist : PlaylistRow := ⟨1, "Morning", "", "audio", 1⟩

/-- A type-`all` playlist owned by user 1. -/
def exPlaylistAll : PlaylistRow := ⟨2, "Everything", "", "all", 1⟩

/-- A database with three media rows, two playlists and no associations. -/
def exDB : DB :=
  { media := [exMediaA, exMediaB, exMediaV]
    playlists := [exPlaylist, exPlaylistAll]
    playlist_media := [] }

/-- `exDB` after AddMedia(playlist 1, media 1) by user 1. -/
def exS1 : DB := (add_media_to_playlist 1 1 1 exDB).2

/-- `exS1` after AddMedia(playlist 1, media 2) by user 1. -/
def exS2 : DB := (add_media_to_playlist 1 1 2 exS1).2

/-- `exS2` after Reorder(playlist 1, [1, 2]) by user 1. -/
def exS3 : DB := (reorder_media_in_playlist 1 1 [1, 2] exS2).2

/-- `exS3` after the partial Reorder(playlist 1, [2]) by user 1. -/
def exS4 : DB := (reorder_media_in_playlist 1 1 [2] exS3).2

/-- The example database together with its three backing files. -/
def exSys : Sys := ⟨exDB, ["aa.mp3", "bb.mp3", "cc.mp4"]⟩

/-- A REST upload whose raw filename extension `.exe` is outside the
allow-list. -/
def exBadExtReq : ApiUploadReq := ⟨"T", "", "", "", "", "", true, "virus.exe"⟩

/-- The same bad-extension upload through the browser form. -/
def exBadExtWeb : WebUploadReq := ⟨"T", "", "", "", "", true, "virus.exe"⟩

/-- A REST upload with a category outside the allow-list. -/
def exBadCatReq : ApiUploadReq := ⟨"T", "", "", "", "bogus", "", true, "doc.txt"⟩

/-- A browser upload with a category outside the allow-list. -/
def exBadCatWeb : WebUploadReq := ⟨"T", "", "", "bogus", "", true, "doc.txt"⟩

/-- A browser upload with a subcategory outside the allow-list. -/
def exBadSubWeb : WebUploadReq := ⟨"T", "", "", "", "weird", true, "doc.txt"⟩

/-- A media row titled `Sunset` (no trailing space) owned by user 1. -/
def exSunset : MediaRow := ⟨1, "Sunset", "", "beach, sky", "dd.jpg", "image", "image", "", 1⟩

/-- The same row but with a title that happens to end in a space. -/
def exSunsetSp : MediaRow := ⟨1, "Sunset ", "", "beach, sky", "dd.jpg", "image", "image", "", 1⟩

/-- A one-item database for exercising the list filters. -/
def exTitleDB : DB := { media := [exSunset], playlists := [], playlist_media := [] }

/-- The same database with the space-terminated title. -/
def exTitleSpDB : DB := { media := [exSunsetSp], playlists := [], playlist_media := [] }

/-! ### Lemmas about the reorder loop -/

theorem map_eq_self_of_fixed {α : Type} {f : α → α} :
    ∀ {l : List α}, (∀ x ∈ l, f x = x) → l.map f = l
  | [], _ => rfl
  | x :: xs, h => by
    simp only [List.map_cons]
    rw [h x (by simp), map_eq_self_of_fixed (fun y hy => h y (by simp [hy]))]

theorem updateFirstPM_isSome_iff (pid mid idx : Nat) :
    ∀ rows : List PlaylistMediaRow,
      (updateFirstPM pid mid idx rows).isSome ↔ (pid, mid) ∈ pmPairs rows := by
  intro rows
  induction rows with
  | nil => simp [updateFirstPM, pmPairs]
  | cons r rs ih =>
    by_cases h : r.playlist_id == pid && r.media_id == mid
    · simp only [updateFirstPM, h, if_true]
      simp only [Bool.and_eq_true, beq_iff_eq] at h
      simp [pmPairs, h.1, h.2]
    · simp only [updateFirstPM, h, if_false]
      have hne : (r.playlist_id, r.media_id) ≠ (pid, mid) := by
        intro hc
        simp only [Prod.mk.injEq] at hc
        simp [hc.1, hc.2] at h
      simp only [pmPairs, List.map_cons, List.mem_cons]
      constructor
      · intro hs
        rcases Option.isSome_iff_exists.mp hs with ⟨v, hv⟩
        rcases Option.map_eq_some'.mp hv with ⟨rs2, hrs2, _⟩
        exact Or.inr ((ih).mp (by simp [hrs2, pmPairs]))
      · intro hm
        rcases hm with hm | hm
        · exact absurd hm.symm hne
        · rcases Option.isSome_iff_exists.mp ((ih).mpr hm) with ⟨rs2, hrs2⟩
          simp [hrs2]

theorem updateFirstPM_pairs (pid mid idx : Nat) :
    ∀ rows rows2 : List PlaylistMediaRow,
      updateFirstPM pid mid idx rows = some rows2 → pmPairs rows2 = pmPairs rows := by
  intro rows
  induction rows with
  | nil => intro rows2 h; simp [updateFirstPM] at h
  | cons r rs ih =>
    intro rows2 h
    by_cases hc : r.playlist_id == pid && r.media_id == mid
    · simp only [updateFirstPM, hc, if_true, Option.some.injEq] at h
      subst h; rfl
    · simp only [updateFirstPM, hc, if_false] at h
      rcases Option.map_eq_some'.mp h with ⟨rs2, hrs2, hcons⟩
      subst hcons
      simp [pmPairs] at ih ⊢
      exact ih rs2 hrs2

theorem updateFirstPM_eq_map (pid mid idx : Nat) :
    ∀ rows rows2 : List PlaylistMediaRow,
      (pmPairs rows).Nodup →
      updateFirstPM pid mid idx rows = some rows2 →
      rows2 = rows.map (setIdx pid mid idx) := by
  intro rows
  induction rows with
  | nil => intro rows2 _ h; simp [updateFirstPM] at h
  | cons r rs ih =>
    intro rows2 hnd h
    have hnd2 : (pmPairs rs).Nodup := (List.nodup_cons.mp hnd).2
    by_cases hc : r.playlist_id == pid && r.media_id == mid
    · simp only [updateFirstPM, hc, if_true, Option.some.injEq] at h
      subst h
      simp only [List.map_cons, setIdx, hc, if_true, List.cons.injEq, true_and]
      have hmem : (pid, mid) ∉ pmPairs rs := by
        have := (List.nodup_cons.mp hnd).1
        simp only [Bool.and_eq_true, beq_iff_eq] at hc
        simpa [pmPairs, hc.1, hc.2] using this
      refine (map_eq_self_of_fixed ?_).symm
      intro x hx
      have hxne : ¬(x.playlist_id == pid && x.media_id == mid) := by
        intro hxc
        simp only [Bool.and_eq_true, beq_iff_eq] at hxc
        exact hmem (by simp [pmPairs]; exact ⟨x, hx, by simp [hxc.1, hxc.2]⟩)
      simp [setIdx, hxne]
    · simp only [updateFirstPM, hc, if_false] at h
      rcases Option.map_eq_some'.mp h with ⟨rs2, hrs2, hcons⟩
      subst hcons
      simp only [List.map_cons, List.cons.injEq]
      exact ⟨by simp [setIdx, hc], ih rs2 hnd2 hrs2⟩

theorem applyReorder_step (pid mid base : Nat) (rest : List Nat) (r : PlaylistMediaRow) :
    applyReorder pid (base + 1) rest (setIdx pid mid base r) =
      applyReorder pid base (mid :: rest) r := by
  by_cases hp : r.playlist_id = pid
  · by_cases hm : r.media_id = mid
    · have hc : (r.playlist_id == pid && r.media_id == mid) = true := by simp [hp, hm]
      simp only [setIdx, hc, if_true]
      by_cases hrest : mid ∈ rest
      · simp only [applyReorder, lastIdx, hp, hm, hrest, List.mem_cons, true_or, and_true,
          if_true, if_pos, and_self, true_and]
        simp [hrest]
        omega
      · simp only [applyReorder, lastIdx, hp, hm, hrest, List.mem_cons, true_or, and_true,
          if_true, and_self, true_and]
        simp [hrest]
    · have hc : (r.playlist_id == pid && r.media_id == mid) = false := by simp [hm]
      simp only [setIdx, hc, Bool.false_eq_true, if_false]
      by_cases hrest : r.media_id ∈ rest
      · have hmem : r.media_id ∈ mid :: rest := List.mem_cons_of_mem _ hrest
        simp only [applyReorder, hp, hrest, hmem, true_and, if_true, lastIdx]
        have : base + 1 + lastIdx r.media_id rest = base + (lastIdx r.media_id rest + 1) := by
          omega
        rw [this]
      · have hmem : r.media_id ∉ mid :: rest := by
          simp [List.mem_cons, hm, hrest]
        simp [applyReorder, hp, hrest, hmem]
  · have hc : (r.playlist_id == pid && r.media_id == mid) = false := by simp [hp]
    simp only [setIdx, hc, Bool.false_eq_true, if_false]
    simp [applyReorder, hp]

theorem reorderLoop_eq_map (pid : Nat) :
    ∀ (ids : List Nat) (base : Nat) (rows rows2 : List PlaylistMediaRow),
      (pmPairs rows).Nodup →
      reorderLoop pid base ids rows = some rows2 →
      rows2 = rows.map (applyReorder pid base ids) := by
  intro ids
  induction ids with
  | nil =>
    intro base rows rows2 _ h
    simp only [reorderLoop, Option.some.injEq] at h
    subst h
    refine (map_eq_self_of_fixed ?_).symm
    intro x _
    simp [applyReorder]
  | cons mid rest ih =>
    intro base rows rows2 hnd h
    simp only [reorderLoop] at h
    cases hu : updateFirstPM pid mid base rows with
    | none => rw [hu] at h; exact absurd h (by simp)
    | some rowsA =>
      rw [hu] at h
      have hA : rowsA = rows.map (setIdx pid mid base) :=
        updateFirstPM_eq_map pid mid base rows rowsA hnd hu
      have hndA : (pmPairs rowsA).Nodup := by
        rw [updateFirstPM_pairs pid mid base rows rowsA hu]; exact hnd
      have h2 := ih (base + 1) rowsA rows2 hndA h
      rw [h2, hA, List.map_map]
      have hfun : applyReorder pid (base + 1) rest ∘ setIdx pid mid base =
          applyReorder pid base (mid :: rest) :=
        funext (fun r => applyReorder_step pid mid base rest r)
      rw [hfun]

theorem reorderLoop_eq_none_iff (pid : Nat) :
    ∀ (ids : List Nat) (base : Nat) (rows : List PlaylistMediaRow),
      reorderLoop pid base ids rows = none ↔ ∃ mid ∈ ids, (pid, mid) ∉ pmPairs rows := by
  intro ids
  induction ids with
  | nil => intro base rows; simp [reorderLoop]
  | cons mid rest ih =>
    intro base rows
    simp only [reorderLoop]
    cases hu : updateFirstPM pid mid base rows with
    | none =>
      have hnm : (pid, mid) ∉ pmPairs rows := by
        intro hm
        have := (updateFirstPM_isSome_iff pid mid base rows).mpr hm
        simp [hu] at this
      simp only [iff_true_intro rfl, true_iff]
      exact ⟨mid, by simp, hnm⟩
    | some rowsA =>
      have hmem : (pid, mid) ∈ pmPairs rows := by
        have : (updateFirstPM pid mid base rows).isSome := by simp [hu]
        exact (updateFirstPM_isSome_iff pid mid base rows).mp this
      have hp : pmPairs rowsA = pmPairs rows :=
        updateFirstPM_pairs pid mid base rows rowsA hu
      rw [ih (base + 1) rowsA, hp]
      constructor
      · rintro ⟨m, hm, hnm⟩
        exact ⟨m, List.mem_cons_of_mem _ hm, hnm⟩
      · rintro ⟨m, hm, hnm⟩
        rcases List.mem_cons.mp hm with hm | hm
        · subst hm; exact absurd hmem hnm
        · exact ⟨m, hm, hnm⟩

/-! ### Last-occurrence index lemmas -/

theorem lastIdx_lt {m : Nat} : ∀ {ids : List Nat}, m ∈ ids → lastIdx m ids < ids.length := by
  intro ids
  induction ids with
  | nil => intro h; simp at h
  | cons a rest ih =>
    intro h
    by_cases hr : m ∈ rest
    · simp only [lastIdx, hr, if_true, List.length_cons]
      exact Nat.succ_lt_succ (ih hr)
    · simp [lastIdx, hr]

theorem lastIdx_get {m : Nat} :
    ∀ {ids : List Nat} (h : m ∈ ids), ids.get ⟨lastIdx m ids, lastIdx_lt h⟩ = m := by
  intro ids
  induction ids with
  | nil => intro h; simp at h
  | cons a rest ih =>
    intro h
    by_cases hr : m ∈ rest
    · have hidx : lastIdx m (a :: rest) = lastIdx m rest + 1 := by simp [lastIdx, hr]
      have h2 := ih hr
      simp only [List.get_eq_getElem] at h2 ⊢
      simp only [hidx, List.getElem_cons_succ]
      exact h2
    · have hma : m = a := by
        rcases List.mem_cons.mp h with h1 | h1
        · exact h1
        · exact absurd h1 hr
      have hidx : lastIdx m (a :: rest) = 0 := by simp [lastIdx, hr]
      simp only [List.get_eq_getElem, hidx, List.getElem_cons_zero]
      exact hma.symm

theorem lastIdx_inj {m m2 : Nat} {ids : List Nat} (hm : m ∈ ids) (hm2 : m2 ∈ ids)
    (heq : lastIdx m ids = lastIdx m2 ids) : m = m2 := by
  have h1 := lastIdx_get hm
  have h2 := lastIdx_get hm2
  rw [← h1, ← h2]
  congr 1
  exact Fin.ext heq

theorem lastIdx_of_nodup :
    ∀ {ids : List Nat}, ids.Nodup → ∀ (i : Fin ids.length), lastIdx (ids.get i) ids = i.val := by
  intro ids
  induction ids with
  | nil => intro _ i; exact absurd i.isLt (by simp)
  | cons a rest ih =>
    intro hnd i
    have hna : a ∉ rest := (List.nodup_cons.mp hnd).1
    match i with
    | ⟨0, _⟩ =>
      simp [lastIdx, hna]
    | ⟨j + 1, hj⟩ =>
      have hj2 : j < rest.length := by simpa using hj
      have hget : (a :: rest).get ⟨j + 1, hj⟩ = rest.get ⟨j, hj2⟩ := rfl
      have hmem : rest.get ⟨j, hj2⟩ ∈ rest := List.get_mem rest j hj2
      rw [hget]
      simp only [lastIdx, hmem, if_true]
      rw [ih (List.nodup_cons.mp hnd).2 ⟨j, hj2⟩]

/-! ### Invariant preservation machinery -/

theorem map_congr_mem {α β : Type} {f g : α → β} :
    ∀ {l : List α}, (∀ x ∈ l, f x = g x) → l.map f = l.map g
  | [], _ => rfl
  | x :: xs, h => by
    simp only [List.map_cons]
    rw [h x (by simp), map_congr_mem (fun y hy => h y (by simp [hy]))]

theorem mem_le_foldr_max {x : Nat} :
    ∀ {l : List Nat}, x ∈ l → x ≤ l.foldr max 0 := by
  intro l
  induction l with
  | nil => intro h; simp at h
  | cons a rest ih =>
    intro h
    rcases List.mem_cons.mp h with h | h
    · subst h; simp [List.foldr_cons, Nat.le_max_left]
    · exact le_trans (ih h) (by simp [List.foldr_cons, Nat.le_max_right])

theorem findPM_isSome_iff (pid mid : Nat) (rows : List PlaylistMediaRow) :
    (findPM pid mid rows).isSome ↔ (pid, mid) ∈ pmPairs rows := by
  simp only [findPM, List.find?_isSome, pmPairs, List.mem_map, Bool.and_eq_true, beq_iff_eq]
  constructor
  · rintro ⟨r, hr, h1, h2⟩
    exact ⟨r, hr, by simp [h1, h2]⟩
  · rintro ⟨r, hr, heq⟩
    simp only [Prod.mk.injEq] at heq
    exact ⟨r, hr, heq.1, heq.2⟩

theorem maxOrder_eq_foldr (pid : Nat) (rows : List PlaylistMediaRow) :
    maxOrder pid rows = (ordersIn pid rows).foldr max 0 := rfl

theorem ordersIn_append (pid : Nat) (rows rows2 : List PlaylistMediaRow) :
    ordersIn pid (rows ++ rows2) = ordersIn pid rows ++ ordersIn pid rows2 := by
  simp [ordersIn, List.filter_append]

theorem applyReorder_playlist_id (pid base : Nat) (ids : List Nat) (r : PlaylistMediaRow) :
    (applyReorder pid base ids r).playlist_id = r.playlist_id := by
  unfold applyReorder
  split <;> rfl

theorem applyReorder_media_id (pid base : Nat) (ids : List Nat) (r : PlaylistMediaRow) :
    (applyReorder pid base ids r).media_id = r.media_id := by
  unfold applyReorder
  split <;> rfl

theorem applyReorder_of_ne (pid base : Nat) (ids : List Nat) {r : PlaylistMediaRow}
    (h : r.playlist_id ≠ pid) : applyReorder pid base ids r = r := by
  simp [applyReorder, h]

theorem pmPairs_map_applyReorder (pid base : Nat) (ids : List Nat)
    (rows : List PlaylistMediaRow) :
    pmPairs (rows.map (applyReorder pid base ids)) = pmPairs rows := by
  simp only [pmPairs, List.map_map]
  exact map_congr_mem (fun r _ => by
    simp [Function.comp, applyReorder_playlist_id, applyReorder_media_id])

theorem ordersIn_map_applyReorder_ne (pid pid2 base : Nat) (ids : List Nat)
    (hne : pid2 ≠ pid) :
    ∀ rows : List PlaylistMediaRow,
      ordersIn pid2 (rows.map (applyReorder pid base ids)) = ordersIn pid2 rows := by
  intro rows
  induction rows with
  | nil => rfl
  | cons r rs ih =>
    by_cases hp : r.playlist_id = pid2
    · have hr : applyReorder pid base ids r = r :=
        applyReorder_of_ne pid base ids (by rw [hp]; exact hne)
      simp only [List.map_cons, ordersIn, List.filter_cons, hr]
      simp only [hp, beq_self_eq_true, if_true, List.map_cons]
      simpa [ordersIn] using ih
    · have hpb : (r.playlist_id == pid2) = false := by simp [hp]
      have hpb2 : ((applyReorder pid base ids r).playlist_id == pid2) = false := by
        simp [applyReorder_playlist_id, hp]
      simp only [List.map_cons, ordersIn, List.filter_cons, hpb, hpb2, Bool.false_eq_true,
        if_false]
      simpa [ordersIn] using ih

theorem ordersIn_map_applyReorder (pid : Nat) (ids : List Nat) :
    ∀ rows : List PlaylistMediaRow,
      (∀ r ∈ rows, r.playlist_id = pid → r.media_id ∈ ids) →
      ordersIn pid (rows.map (applyReorder pid 0 ids)) =
        ((rows.filter (fun r => r.playlist_id == pid)).map (fun r => r.media_id)).map
          (fun m => lastIdx m ids) := by
  intro rows
  induction rows with
  | nil => intro _; rfl
  | cons r rs ih =>
    intro hcov
    have hcov2 : ∀ x ∈ rs, x.playlist_id = pid → x.media_id ∈ ids :=
      fun x hx => hcov x (by simp [hx])
    by_cases hp : r.playlist_id = pid
    · have hm : r.media_id ∈ ids := hcov r (by simp) hp
      have hord : (applyReorder pid 0 ids r).order_index = lastIdx r.media_id ids := by
        simp [applyReorder, hp, hm]
      have hpb : (r.playlist_id == pid) = true := by simp [hp]
      have hpb2 : ((applyReorder pid 0 ids r).playlist_id == pid) = true := by
        simp [applyReorder_playlist_id, hp]
      simp only [List.map_cons, ordersIn, List.filter_cons, hpb, hpb2, if_true, List.map_cons,
        hord]
      have := ih hcov2
      simp only [ordersIn] at this
      rw [this]
    · have hpb : (r.playlist_id == pid) = false := by simp [hp]
      have hpb2 : ((applyReorder pid 0 ids r).playlist_id == pid) = false := by
        simp [applyReorder_playlist_id, hp]
      simp only [List.map_cons, ordersIn, List.filter_cons, hpb, hpb2, Bool.false_eq_true,
        if_false]
      have := ih hcov2
      simp only [ordersIn] at this
      rw [this]

theorem filtered_media_nodup (pid : Nat) (rows : List PlaylistMediaRow)
    (h : (pmPairs rows).Nodup) :
    ((rows.filter (fun r => r.playlist_id == pid)).map (fun r => r.media_id)).Nodup := by
  have hsub : List.Sublist (rows.filter (fun r => r.playlist_id == pid)) rows := List.filter_sublist rows
  have hnd : (pmPairs (rows.filter (fun r => r.playlist_id == pid))).Nodup :=
    List.Nodup.sublist (List.Sublist.map _ hsub) h
  have heq : pmPairs (rows.filter (fun r => r.playlist_id == pid)) =
      ((rows.filter (fun r => r.playlist_id == pid)).map (fun r => r.media_id)).map
        (fun m => (pid, m)) := by
    simp only [pmPairs, List.map_map]
    refine map_congr_mem ?_
    intro r hr
    have := List.of_mem_filter hr
    simp only [beq_iff_eq] at this
    simp [Function.comp, this]
  rw [heq] at hnd
  exact List.Nodup.of_map _ hnd

theorem erasePM_sublist (pid mid : Nat) :
    ∀ rows : List PlaylistMediaRow, List.Sublist (erasePM pid mid rows) rows := by
  intro rows
  induction rows with
  | nil => simp [erasePM]
  | cons r rs ih =>
    by_cases hc : r.playlist_id == pid && r.media_id == mid
    · simp only [erasePM, hc, if_true]
      exact List.sublist_cons_of_sublist r (List.Sublist.refl rs)
    · simp only [erasePM, hc, Bool.false_eq_true, if_false]
      exact List.Sublist.cons₂ r ih

theorem PMInv_of_sublist {rows rows2 : List PlaylistMediaRow}
    (hsub : List.Sublist rows2 rows) (h : PMInv rows) : PMInv rows2 := by
  refine ⟨List.Nodup.sublist (List.Sublist.map _ hsub) h.1, fun pid => ?_⟩
  exact List.Nodup.sublist (List.Sublist.map _ (List.Sublist.filter _ hsub)) (h.2 pid)

/-- What AddMedia can do to the association table: leave it alone, or append
one fresh row at `max order_index + 1` for a pair not yet present. -/
theorem add_media_playlist_media_cases (uid pid mid : Nat) (s : DB) :
    (add_media_to_playlist uid pid mid s).2.playlist_media = s.playlist_media ∨
    ((add_media_to_playlist uid pid mid s).2.playlist_media =
        s.playlist_media ++ [newPMRow pid mid s.playlist_media] ∧
      (pid, mid) ∉ pmPairs s.playlist_media) := by
  unfold add_media_to_playlist
  split
  · left; rfl
  · split
    · left; rfl
    · split
      · left; rfl
      · split
        · left; rfl
        next hex =>
          right
          refine ⟨rfl, ?_⟩
          rw [← findPM_isSome_iff]
          simpa using hex

theorem PMInv_add (uid pid mid : Nat) (s : DB) (h : PMInv s.playlist_media) :
    PMInv (add_media_to_playlist uid pid mid s).2.playlist_media := by
  rcases add_media_playlist_media_cases uid pid mid s with hc | ⟨hc, hnew⟩
  · rw [hc]; exact h
  · rw [hc]
    constructor
    · simp only [pmPairs, List.map_append, List.map_cons, List.map_nil]
      rw [List.nodup_append]
      refine ⟨h.1, by simp, ?_⟩
      intro a ha hb
      simp only [List.mem_cons, List.not_mem_nil, or_false] at hb
      subst hb
      exact hnew ha
    · intro pid2
      rw [ordersIn_append]
      by_cases hpp : pid2 = pid
      · subst hpp
        have hsing : ordersIn pid2 [newPMRow pid2 mid s.playlist_media] =
            [maxOrder pid2 s.playlist_media + 1] := by
          simp [ordersIn, newPMRow]
        rw [hsing, List.nodup_append]
        refine ⟨h.2 pid2, by simp, ?_⟩
        intro a ha hb
        simp only [List.mem_cons, List.not_mem_nil, or_false] at hb
        subst hb
        have := mem_le_foldr_max (l := ordersIn pid2 s.playlist_media) ha
        rw [← maxOrder_eq_foldr] at this
        omega
      · have hsing : ordersIn pid2 [newPMRow pid mid s.playlist_media] = [] := by
          simp only [ordersIn, newPMRow, List.filter_cons, List.filter_nil, beq_iff_eq]
          rw [if_neg (fun hc2 => hpp hc2.symm)]
          rfl
        rw [hsing, List.append_nil]
        exact h.2 pid2

theorem remove_media_playlist_media_sublist (uid pid mid : Nat) (s : DB) :
    List.Sublist (remove_media_from_playlist uid pid mid s).2.playlist_media
      s.playlist_media := by
  unfold remove_media_from_playlist
  split
  · exact List.Sublist.refl _
  · split
    · exact List.Sublist.refl _
    · exact erasePM_sublist pid mid s.playlist_media

theorem PMInv_remove (uid pid mid : Nat) (s : DB) (h : PMInv s.playlist_media) :
    PMInv (remove_media_from_playlist uid pid mid s).2.playlist_media :=
  PMInv_of_sublist (remove_media_playlist_media_sublist uid pid mid s) h

theorem PMInv_reorder (uid pid : Nat) (ids : List Nat) (s : DB)
    (h : PMInv s.playlist_media)
    (hcov : coversMembers pid ids s.playlist_media) :
    PMInv (reorder_media_in_playlist uid pid ids s).2.playlist_media := by
  unfold reorder_media_in_playlist
  split
  · exact h
  · split
    · exact h
    · split
      · exact h
      next rows2 hrl =>
        have h2 : rows2 = s.playlist_media.map (applyReorder pid 0 ids) :=
          reorderLoop_eq_map pid ids 0 _ rows2 h.1 hrl
        constructor
        · simp only
          rw [h2, pmPairs_map_applyReorder]
          exact h.1
        · intro pid2
          simp only
          by_cases hpp : pid2 = pid
          · subst hpp
            rw [h2, ordersIn_map_applyReorder pid2 ids _ hcov]
            refine List.Nodup.map_on ?_ (filtered_media_nodup pid2 _ h.1)
            intro x hx y hy hxy
            have hxids : x ∈ ids := by
              rcases List.mem_map.mp hx with ⟨r, hr, hrx⟩
              have hrf := List.mem_filter.mp hr
              have := hcov r hrf.1 (by simpa using hrf.2)
              rw [hrx] at this
              exact this
            have hyids : y ∈ ids := by
              rcases List.mem_map.mp hy with ⟨r, hr, hry⟩
              have hrf := List.mem_filter.mp hr
              have := hcov r hrf.1 (by simpa using hrf.2)
              rw [hry] at this
              exact this
            exact lastIdx_inj hxids hyids hxy
          · rw [h2, ordersIn_map_applyReorder_ne pid pid2 0 ids hpp]
            exact h.2 pid2

theorem countPair_eq_zero_iff (pid mid : Nat) :
    ∀ rows : List PlaylistMediaRow,
      countPair pid mid rows = 0 ↔ (pid, mid) ∉ pmPairs rows := by
  intro rows
  induction rows with
  | nil => simp [countPair, pmPairs]
  | cons r rs ih =>
    by_cases hc : r.playlist_id == pid && r.media_id == mid
    · simp only [countPair, List.filter_cons, hc, if_true, List.length_cons]
      simp only [Bool.and_eq_true, beq_iff_eq] at hc
      simp [pmPairs, hc.1, hc.2]
    · have hskip : countPair pid mid (r :: rs) = countPair pid mid rs := by
        simp [countPair, List.filter_cons, hc]
      have hne : (r.playlist_id, r.media_id) ≠ (pid, mid) := fun he => by
        simp only [Prod.mk.injEq] at he
        simp [he.1, he.2] at hc
      rw [hskip, ih]
      simp only [pmPairs, List.map_cons, List.mem_cons]
      constructor
      · intro hni hm
        rcases hm with hm | hm
        · exact hne hm.symm
        · exact hni hm
      · intro hni hm
        exact hni (Or.inr hm)

theorem countPair_pos_of_mem {pid mid : Nat} {rows : List PlaylistMediaRow}
    (h : (pid, mid) ∈ pmPairs rows) : 0 < countPair pid mid rows := by
  rcases Nat.eq_zero_or_pos (countPair pid mid rows) with h0 | h0
  · exact absurd h ((countPair_eq_zero_iff pid mid rows).mp h0)
  · exact h0

theorem countPair_le_one_of_nodup (pid mid : Nat) :
    ∀ rows : List PlaylistMediaRow, (pmPairs rows).Nodup → countPair pid mid rows ≤ 1 := by
  intro rows
  induction rows with
  | nil => intro _; simp [countPair]
  | cons r rs ih =>
    intro hnd
    have hnd2 : (pmPairs rs).Nodup := (List.nodup_cons.mp hnd).2
    by_cases hc : r.playlist_id == pid && r.media_id == mid
    · simp only [countPair, List.filter_cons, hc, if_true, List.length_cons]
      have hzero : countPair pid mid rs = 0 := by
        rw [countPair_eq_zero_iff]
        simp only [Bool.and_eq_true, beq_iff_eq] at hc
        have := (List.nodup_cons.mp hnd).1
        rw [← hc.1, ← hc.2]
        simpa [pmPairs] using this
      simp only [countPair] at hzero
      omega
    · have hskip : countPair pid mid (r :: rs) = countPair pid mid rs := by
        simp [countPair, List.filter_cons, hc]
      rw [hskip]
      exact ih hnd2

theorem countPair_append (pid mid : Nat) (rows rows2 : List PlaylistMediaRow) :
    countPair pid mid (rows ++ rows2) = countPair pid mid rows + countPair pid mid rows2 := by
  simp [countPair, List.filter_append]

/-! ### Shape of the results of the reorder handler -/

theorem reorder_empty_eq (uid pid : Nat) (s : DB) {pl : PlaylistRow}
    (hpl : findPlaylist pid uid s = some pl) :
    reorder_media_in_playlist uid pid [] s = (.error .validationError, s) := by
  unfold reorder_media_in_playlist
  rw [hpl]
  rfl

theorem reorder_eq_of_some (uid pid : Nat) (ids : List Nat) (s : DB) {pl : PlaylistRow}
    {rows2 : List PlaylistMediaRow}
    (hpl : findPlaylist pid uid s = some pl) (hemp : ids ≠ [])
    (hrl : reorderLoop pid 0 ids s.playlist_media = some rows2) :
    reorder_media_in_playlist uid pid ids s = (.ok (), { s with playlist_media := rows2 }) := by
  unfold reorder_media_in_playlist
  rw [hpl]
  have hempb : ids.isEmpty = false := by
    cases ids with
    | nil => exact absurd rfl hemp
    | cons a l => rfl
  rw [hempb]
  simp only [Bool.false_eq_true, if_false]
  rw [hrl]

theorem reorder_eq_of_none (uid pid : Nat) (ids : List Nat) (s : DB) {pl : PlaylistRow}
    (hpl : findPlaylist pid uid s = some pl) (hemp : ids ≠ [])
    (hrl : reorderLoop pid 0 ids s.playlist_media = none) :
    reorder_media_in_playlist uid pid ids s = (.error .validationError, s) := by
  unfold reorder_media_in_playlist
  rw [hpl]
  have hempb : ids.isEmpty = false := by
    cases ids with
    | nil => exact absurd rfl hemp
    | cons a l => rfl
  rw [hempb]
  simp only [Bool.false_eq_true, if_false]
  rw [hrl]

theorem eraseFirstMediaRow_no_id (theId : Nat) :
    ∀ rows : List MediaRow, (rows.map (fun x => x.id)).Nodup →
      ∀ r ∈ eraseFirstMediaRow theId rows, r.id ≠ theId := by
  intro rows
  induction rows with
  | nil =>
    intro _ r hr
    simp [eraseFirstMediaRow] at hr
  | cons x xs ih =>
    intro hnd r hr
    by_cases hc : x.id == theId
    · simp only [eraseFirstMediaRow, hc, if_true] at hr
      have hx : x.id = theId := by simpa using hc
      have hnotin : x.id ∉ xs.map (fun y => y.id) := by
        have := (List.nodup_cons.mp hnd).1
        simpa using this
      intro hre
      exact hnotin (by rw [hx, ← hre]; exact List.mem_map.mpr ⟨r, hr, rfl⟩)
    · simp only [eraseFirstMediaRow, hc, Bool.false_eq_true, if_false, List.mem_cons] at hr
      rcases hr with hr | hr
      · subst hr
        simpa using hc
      · exact ih (List.nodup_cons.mp hnd).2 r hr

/-! ### Claims -/

/-- C2 counterexample: starting from a database with an empty association
table, the operation sequence AddMedia(1,1), AddMedia(1,2), Reorder([1,2]),
Reorder([2]) — every step reported successful — leaves playlist 1 with the
duplicate `order_index` list `[0, 0]`: the partial reorder resets media 2 to
index 0 while media 1 keeps the index 0 it received from the previous full
reorder, so per-playlist `order_index` uniqueness is *not* preserved by
every operation sequence. -/
theorem reorder_partial_breaks_order_uniqueness :
    (add_media_to_playlist 1 1 1 exDB).1 = .ok .added ∧
    (add_media_to_playlist 1 1 2 exS1).1 = .ok .added ∧
    (reorder_media_in_playlist 1 1 [1, 2] exS2).1 = .ok () ∧
    (reorder_media_in_playlist 1 1 [2] exS3).1 = .ok () ∧
    ordersIn 1 exS4.playlist_media = [0, 0] ∧
    ¬ (ordersIn 1 exS4.playlist_media).Nodup := by
  decide

/-- C2 amended: from any state satisfying both intended `playlist_media`
invariants (unique pairs, per-playlist unique `order_index`), AddMedia and
RemoveMedia preserve them, and Reorder preserves them whenever its id
sequence covers every current member of the playlist; a Reorder omitting
members may violate order-uniqueness (see the counterexample). -/
theorem pm_invariants_preserved_amended (uid pid mid : Nat) (ids : List Nat) (s : DB)
    (h : PMInv s.playlist_media) :
    PMInv (add_media_to_playlist uid pid mid s).2.playlist_media ∧
    PMInv (remove_media_from_playlist uid pid mid s).2.playlist_media ∧
    (coversMembers pid ids s.playlist_media →
      PMInv (reorder_media_in_playlist uid pid ids s).2.playlist_media) :=
  ⟨PMInv_add uid pid mid s h, PMInv_remove uid pid mid s h,
    fun hcov => PMInv_reorder uid pid ids s h hcov⟩

/-- Witness for the amended C2 theorem at a concrete state. -/
theorem pm_invariants_preserved_amended_witness :
    (ordersIn 1 exS1.playlist_media).Nodup ∧
    (ordersIn 1 (remove_media_from_playlist 1 1 1 exDB).2.playlist_media).Nodup ∧
    (ordersIn 1 (reorder_media_in_playlist 1 1 ([] : List Nat) exDB).2.playlist_media).Nodup := by
  have hinv : PMInv exDB.playlist_media := by
    constructor
    · decide
    · intro pid
      simp [ordersIn, exDB]
  have h := pm_invariants_preserved_amended 1 1 1 ([] : List Nat) exDB hinv
  refine ⟨h.1.2 1, h.2.1.2 1, (h.2.2 ?_).2 1⟩
  intro r hr
  simp [exDB] at hr

/-- C1: for a playlist owned by the requesting user, in a database whose
(playlist, media) pairs are unique, Reorder with a duplicate-free id
sequence (a) reports success when every listed id is a member and the list
is non-empty, (b) gives each listed member the `order_index` equal to its
zero-based position in the sequence, (c) keeps the row of every unlisted member
— including its `order_index` — untouched, and (d) when any listed id is
not currently a member, fails with `ValidationError` and returns the state
completely unchanged (no partial reorder is visible). -/
theorem reorder_sets_positions_and_is_atomic (uid pid : Nat) (ids : List Nat) (s : DB)
    (pl : PlaylistRow)
    (hpl : findPlaylist pid uid s = some pl)
    (hpairs : (pmPairs s.playlist_media).Nodup)
    (hnd : ids.Nodup) :
    ((∀ mid ∈ ids, (pid, mid) ∈ pmPairs s.playlist_media) →
      (ids ≠ [] → (reorder_media_in_playlist uid pid ids s).1 = .ok ()) ∧
      (∀ (i : Fin ids.length) (r : PlaylistMediaRow),
          r ∈ (reorder_media_in_playlist uid pid ids s).2.playlist_media →
          r.playlist_id = pid → r.media_id = ids.get i → r.order_index = i.val) ∧
      (∀ r ∈ s.playlist_media, r.playlist_id = pid → r.media_id ∉ ids →
          r ∈ (reorder_media_in_playlist uid pid ids s).2.playlist_media)) ∧
    ((∃ mid ∈ ids, (pid, mid) ∉ pmPairs s.playlist_media) →
      reorder_media_in_playlist uid pid ids s = (.error .validationError, s)) := by
  constructor
  · intro hall
    by_cases hemp : ids = []
    · subst hemp
      have hres := reorder_empty_eq uid pid s hpl
      refine ⟨fun h => absurd rfl h, ?_, ?_⟩
      · intro i
        exact absurd i.isLt (by simp)
      · intro r hr _ _
        rw [hres]
        exact hr
    · have hnone : reorderLoop pid 0 ids s.playlist_media ≠ none := by
        rw [Ne, reorderLoop_eq_none_iff]
        rintro ⟨m, hm, hnm⟩
        exact hnm (hall m hm)
      cases hrl : reorderLoop pid 0 ids s.playlist_media with
      | none => exact absurd hrl hnone
      | some rows2 =>
        have hres := reorder_eq_of_some uid pid ids s hpl hemp hrl
        have hmap : rows2 = s.playlist_media.map (applyReorder pid 0 ids) :=
          reorderLoop_eq_map pid ids 0 _ rows2 hpairs hrl
        refine ⟨fun _ => by rw [hres], ?_, ?_⟩
        · intro i r hr hrp hrm
          rw [hres] at hr
          simp only at hr
          rw [hmap] at hr
          rcases List.mem_map.mp hr with ⟨r0, hr0, hr0e⟩
          have hp0 : r0.playlist_id = pid := by
            rw [← applyReorder_playlist_id pid 0 ids r0, hr0e]
            exact hrp
          have hm0 : r0.media_id = ids.get i := by
            rw [← applyReorder_media_id pid 0 ids r0, hr0e]
            exact hrm
          have hmem : r0.media_id ∈ ids := by
            rw [hm0]
            exact List.get_mem ids i.val i.isLt
          have hord : (applyReorder pid 0 ids r0).order_index =
              0 + lastIdx r0.media_id ids := by
            simp [applyReorder, hp0, hmem]
          rw [← hr0e, hord, hm0, lastIdx_of_nodup hnd i]
          omega
        · intro r hr hrp hrm
          rw [hres]
          simp only
          rw [hmap]
          have hfix : applyReorder pid 0 ids r = r := by
            simp [applyReorder, hrm]
          exact List.mem_map.mpr ⟨r, hr, hfix⟩
  · rintro ⟨m, hm, hnm⟩
    have hemp : ids ≠ [] := by
      rintro rfl
      simp at hm
    have hnone : reorderLoop pid 0 ids s.playlist_media = none :=
      (reorderLoop_eq_none_iff pid ids 0 _).mpr ⟨m, hm, hnm⟩
    exact reorder_eq_of_none uid pid ids s hpl hemp hnone

/-- Witness for the C1 theorem: on the concrete two-member playlist,
Reorder([2, 1]) succeeds and Reorder([3]) (media 3 is not a member) fails
with `ValidationError` leaving the state untouched. -/
theorem reorder_sets_positions_and_is_atomic_witness :
    (reorder_media_in_playlist 1 1 [2, 1] exS2).1 = .ok () ∧
    reorder_media_in_playlist 1 1 [3] exS2 = (.error .validationError, exS2) := by
  have hok := reorder_sets_positions_and_is_atomic 1 1 [2, 1] exS2 exPlaylist
    (by decide) (by decide) (by decide)
  have hbad := reorder_sets_positions_and_is_atomic 1 1 [3] exS2 exPlaylist
    (by decide) (by decide) (by decide)
  constructor
  · exact (hok.1 (by decide)).1 (by decide)
  · exact hbad.2 ⟨3, by decide, by decide⟩

/-- C3: AddMedia is idempotent.  In a database whose (playlist, media) pairs
are unique, if a first AddMedia call reports success (either by inserting or
as a duplicate no-op), then an immediate second call with the same pair also
reports success (the `Media already in playlist` 200), changes nothing, and
exactly one association row for the pair exists after the first call — so
its `order_index` is trivially unchanged by the second call. -/
theorem add_media_idempotent (uid pid mid : Nat) (s : DB) (out : AddOutcome)
    (hpairs : (pmPairs s.playlist_media).Nodup)
    (h1 : (add_media_to_playlist uid pid mid s).1 = .ok out) :
    (add_media_to_playlist uid pid mid (add_media_to_playlist uid pid mid s).2).1 =
        .ok .alreadyInPlaylist ∧
    (add_media_to_playlist uid pid mid (add_media_to_playlist uid pid mid s).2).2 =
        (add_media_to_playlist uid pid mid s).2 ∧
    countPair pid mid (add_media_to_playlist uid pid mid s).2.playlist_media = 1 := by
  unfold add_media_to_playlist at h1
  split at h1
  · exact absurd h1 (by simp)
  next pl hpl =>
    split at h1
    · exact absurd h1 (by simp)
    next m hm =>
      split at h1
      · exact absurd h1 (by simp)
      next ht =>
        split at h1
        next hex =>
          have hfirst : add_media_to_playlist uid pid mid s = (.ok .alreadyInPlaylist, s) := by
            unfold add_media_to_playlist
            rw [hpl, hm]
            dsimp only
            rw [if_neg ht, if_pos hex]
          have hmem : (pid, mid) ∈ pmPairs s.playlist_media :=
            (findPM_isSome_iff pid mid s.playlist_media).mp hex
          rw [hfirst]
          dsimp only
          refine ⟨by rw [hfirst], by rw [hfirst], ?_⟩
          have hle := countPair_le_one_of_nodup pid mid s.playlist_media hpairs
          have hpos := countPair_pos_of_mem hmem
          omega
        next hex =>
          have hfirst : add_media_to_playlist uid pid mid s =
              (.ok .added,
               { s with playlist_media :=
                   s.playlist_media ++ [newPMRow pid mid s.playlist_media] }) := by
            unfold add_media_to_playlist
            rw [hpl, hm]
            dsimp only
            rw [if_neg ht, if_neg hex]
            rfl
          have hmem : (pid, mid) ∈
              pmPairs (s.playlist_media ++ [newPMRow pid mid s.playlist_media]) := by
            simp [pmPairs, newPMRow]
          have hex2 : (findPM pid mid
              (s.playlist_media ++ [newPMRow pid mid s.playlist_media])).isSome :=
            (findPM_isSome_iff pid mid _).mpr hmem
          have hsecond : add_media_to_playlist uid pid mid
              ({ s with playlist_media :=
                  s.playlist_media ++ [newPMRow pid mid s.playlist_media] }) =
              (.ok .alreadyInPlaylist,
               { s with playlist_media :=
                   s.playlist_media ++ [newPMRow pid mid s.playlist_media] }) := by
            unfold add_media_to_playlist
            rw [show findPlaylist pid uid ({ s with playlist_media :=
                s.playlist_media ++ [newPMRow pid mid s.playlist_media] }) = some pl from hpl]
            rw [show getMedia mid ({ s with playlist_media :=
                s.playlist_media ++ [newPMRow pid mid s.playlist_media] }) = some m from hm]
            dsimp only
            rw [if_neg ht, if_pos hex2]
          rw [hfirst]
          dsimp only
          refine ⟨by rw [hsecond], by rw [hsecond], ?_⟩
          have hzero : countPair pid mid s.playlist_media = 0 := by
            rw [countPair_eq_zero_iff]
            intro hmem0
            exact hex ((findPM_isSome_iff pid mid s.playlist_media).mpr hmem0)
          rw [countPair_append, hzero]
          simp [countPair, newPMRow]

/-- Witness for C3: adding media 1 to playlist 1 twice from the concrete
state leaves one association row and both calls report success. -/
theorem add_media_idempotent_witness :
    (add_media_to_playlist 1 1 1 exS1).1 = .ok .alreadyInPlaylist ∧
    (add_media_to_playlist 1 1 1 exS1).2 = exS1 ∧
    countPair 1 1 exS1.playlist_media = 1 := by
  have h := add_media_idempotent 1 1 1 exDB .added (by decide) (by decide)
  exact h

/-- C4: for a caller-owned playlist whose type is not `all` and a media item
whose `file_type` differs from that type, AddMedia fails with the
type-mismatch 400 and returns the state unchanged — no association row is
created. -/
theorem add_media_type_mismatch (uid pid mid : Nat) (s : DB) (pl : PlaylistRow) (m : MediaRow)
    (hpl : findPlaylist pid uid s = some pl)
    (hm : getMedia mid s = some m)
    (hty : pl.playlist_type ≠ "all")
    (hft : m.file_type ≠ pl.playlist_type) :
    add_media_to_playlist uid pid mid s = (.error .typeMismatch, s) := by
  unfold add_media_to_playlist
  rw [hpl, hm]
  dsimp only
  rw [if_pos ⟨hty, hft⟩]

/-- Witness for C4: adding the video item (media 3) to the audio playlist 1
fails with `TypeMismatch` and leaves the database unchanged. -/
theorem add_media_type_mismatch_witness :
    add_media_to_playlist 1 1 3 exDB = (.error .typeMismatch, exDB) :=
  add_media_type_mismatch 1 1 3 exDB exPlaylist exMediaV (by decide) (by decide)
    (by decide) (by decide)

/-- C10: AddMedia looks the media item up by id only — no ownership filter —
so for a caller-owned playlist and any existing media item of compatible
type (whatever its `user_id`, including one of another user) that is not yet a
member, the call succeeds and creates the association. -/
theorem add_media_ignores_media_owner (uid pid mid : Nat) (s : DB)
    (pl : PlaylistRow) (m : MediaRow)
    (hpl : findPlaylist pid uid s = some pl)
    (hm : getMedia mid s = some m)
    (hcompat : pl.playlist_type = "all" ∨ m.file_type = pl.playlist_type)
    (hnew : (pid, mid) ∉ pmPairs s.playlist_media) :
    (add_media_to_playlist uid pid mid s).1 = .ok .added ∧
    (pid, mid) ∈ pmPairs (add_media_to_playlist uid pid mid s).2.playlist_media := by
  have hneg : ¬(pl.playlist_type ≠ "all" ∧ m.file_type ≠ pl.playlist_type) := by
    rcases hcompat with h | h
    · exact fun hc => hc.1 h
    · exact fun hc => hc.2 h
  have hex : ¬((findPM pid mid s.playlist_media).isSome = true) := by
    intro hs
    exact hnew ((findPM_isSome_iff pid mid s.playlist_media).mp hs)
  unfold add_media_to_playlist
  rw [hpl, hm]
  dsimp only
  rw [if_neg hneg, if_neg hex]
  refine ⟨rfl, ?_⟩
  dsimp only
  simp [pmPairs, newPMRow]

/-- Witness for C10: media 3 belongs to user 2, yet user 1 can add it to
their own type-`all` playlist 2; the media lookup ignores ownership. -/
theorem add_media_ignores_media_owner_witness :
    (add_media_to_playlist 1 2 3 exDB).1 = .ok .added ∧
    (2, 3) ∈ pmPairs (add_media_to_playlist 1 2 3 exDB).2.playlist_media ∧
    exMediaV.user_id = 2 ∧
    MediaItem_get 1 3 exDB = .error .notFound := by
  have h := add_media_ignores_media_owner 1 2 3 exDB exPlaylistAll exMediaV
    (by decide) (by decide) (by decide) (by decide)
  exact ⟨h.1, h.2, by decide, by decide⟩

/-- C5 counterexample: the claim fails on the browser surface.  Media 1
belongs to user 1, yet `media_page` (which consults no identity at all)
serves its full row to any requester, and user 2 attempting to edit or
delete it receives the distinct "not authorized" flash-redirect rather than
`NotFound` — both revealing that the item exists. -/
theorem ownership_isolation_counterexample :
    media_page 1 exDB = .ok exMediaA ∧
    exMediaA.user_id = 1 ∧
    edit_media 2 1 exDB = .error .forbiddenRedirect ∧
    (delete_media_page (fun _ => false) 2 1 exSys).1 = .error .forbiddenRedirect := by
  decide

/-- C5 amended: the REST API collapses absence and foreign ownership into
`NotFound` for Media get/put/delete and Playlist get/put/delete; the browser
surface does not — `media_page` serves any existing media row to any
requester, and `edit_media` / `delete_media_page` answer a non-owner with an
authorization flash-redirect distinct from `NotFound`. -/
theorem ownership_isolation_amended (uid mid pid : Nat) (s : DB) (sys : Sys)
    (u : MediaUpdate) (p : PlaylistUpdate) (rf : String → Bool)
    (hm : findOwnedMedia mid uid s = none)
    (hmsys : findOwnedMedia mid uid sys.dbS = none)
    (hp : findPlaylist pid uid s = none) :
    (MediaItem_get uid mid s = .error .notFound ∧
     MediaItem_put uid mid u s = (.error .notFound, s) ∧
     MediaItem_delete rf uid mid sys = (.error .notFound, sys)) ∧
    (PlaylistItem_get uid pid s = .error .notFound ∧
     PlaylistItem_put uid pid p s = (.error .notFound, s) ∧
     PlaylistItem_delete uid pid s = (.error .notFound, s)) ∧
    (∀ m : MediaRow, getMedia mid s = some m →
       media_page mid s = .ok m ∧
       (m.user_id ≠ uid → edit_media uid mid s = .error .forbiddenRedirect)) ∧
    (∀ m : MediaRow, getMedia mid sys.dbS = some m → m.user_id ≠ uid →
       delete_media_page rf uid mid sys = (.error .forbiddenRedirect, sys)) := by
  refine ⟨⟨?_, ?_, ?_⟩, ⟨?_, ?_, ?_⟩, ?_, ?_⟩
  · unfold MediaItem_get
    rw [hm]
  · unfold MediaItem_put
    rw [hm]
  · unfold MediaItem_delete
    rw [hmsys]
  · unfold PlaylistItem_get
    rw [hp]
  · unfold PlaylistItem_put
    rw [hp]
  · unfold PlaylistItem_delete
    rw [hp]
  · intro m hgm
    constructor
    · unfold media_page
      rw [hgm]
    · intro hne
      unfold edit_media
      rw [hgm]
      dsimp only
      rw [if_pos hne]
  · intro m hgm hne
    unfold delete_media_page
    rw [hgm]
    dsimp only
    rw [if_pos hne]

/-- Witness for the amended C5 theorem: user 2 against media 1 and
playlist 1. -/
theorem ownership_isolation_amended_witness :
    MediaItem_get 2 1 exDB = .error .notFound ∧
    PlaylistItem_get 2 1 exDB = .error .notFound ∧
    media_page 1 exDB = .ok exMediaA ∧
    edit_media 2 1 exDB = .error .forbiddenRedirect := by
  have h := ownership_isolation_amended 2 1 1 exDB exSys ({} : MediaUpdate)
    ({} : PlaylistUpdate) (fun _ => false) (by decide) (by decide) (by decide)
  exact ⟨h.1.1, h.2.1.1, (h.2.2.1 exMediaA (by decide)).1,
    (h.2.2.1 exMediaA (by decide)).2 (by decide)⟩

/-- C6: for an existing caller-owned media item whose backing file is in the
store (with distinct filenames on disk and distinct row ids in the table):
if removing the file fails, Delete returns the storage 500 with the whole
state unchanged, so a subsequent Get still returns the item; if removal
succeeds, Delete reports success, the file is gone from the store, and the
row is gone, so a subsequent Get yields `NotFound`. -/
theorem delete_media_file_then_row (uid mid : Nat) (sys : Sys) (m : MediaRow)
    (rf : String → Bool)
    (hm : findOwnedMedia mid uid sys.dbS = some m)
    (hfile : sys.files.contains m.filename = true)
    (hnd : sys.files.Nodup)
    (hids : (sys.dbS.media.map (fun x => x.id)).Nodup) :
    (rf m.filename = true →
      MediaItem_delete rf uid mid sys = (.error .storageError, sys) ∧
      MediaItem_get uid mid (MediaItem_delete rf uid mid sys).2.dbS = .ok m) ∧
    (rf m.filename = false →
      (MediaItem_delete rf uid mid sys).1 = .ok () ∧
      m.filename ∉ (MediaItem_delete rf uid mid sys).2.files ∧
      MediaItem_get uid mid (MediaItem_delete rf uid mid sys).2.dbS = .error .notFound) := by
  have hmid : m.id = mid ∧ m.user_id = uid := by
    have := List.find?_some hm
    simpa using this
  constructor
  · intro hrf
    have hdel : MediaItem_delete rf uid mid sys = (.error .storageError, sys) := by
      unfold MediaItem_delete
      rw [hm]
      dsimp only
      rw [if_pos hfile, if_pos hrf]
    refine ⟨hdel, ?_⟩
    rw [hdel]
    unfold MediaItem_get
    rw [hm]
  · intro hrf
    have hrfb : ¬(rf m.filename = true) := by simp [hrf]
    have hdel : MediaItem_delete rf uid mid sys =
        (.ok (),
         { dbS := { sys.dbS with media := eraseFirstMediaRow m.id sys.dbS.media }
           files := sys.files.erase m.filename }) := by
      unfold MediaItem_delete
      rw [hm]
      dsimp only
      rw [if_pos hfile, if_neg hrfb]
    rw [hdel]
    refine ⟨rfl, ?_, ?_⟩
    · intro hin
      have := (List.Nodup.mem_erase_iff hnd).mp hin
      exact this.1 rfl
    · unfold MediaItem_get
      have hnone : findOwnedMedia mid uid
          ({ sys.dbS with media := eraseFirstMediaRow m.id sys.dbS.media }) = none := by
        unfold findOwnedMedia
        apply List.find?_eq_none.mpr
        intro r hr
        have hrid : r.id ≠ m.id := eraseFirstMediaRow_no_id m.id sys.dbS.media hids r hr
        have : r.id ≠ mid := by rw [← hmid.1]; exact hrid
        simp [this]
      rw [hnone]

/-- Witness for C6 at the concrete store: a failing remove leaves media 1
retrievable; a succeeding remove deletes file and row. -/
theorem delete_media_file_then_row_witness :
    MediaItem_delete (fun _ => true) 1 1 exSys = (.error .storageError, exSys) ∧
    (MediaItem_delete (fun _ => false) 1 1 exSys).1 = .ok () ∧
    MediaItem_get 1 1 (MediaItem_delete (fun _ => false) 1 1 exSys).2.dbS =
      .error .notFound := by
  have h1 := delete_media_file_then_row 1 1 exSys exMediaA (fun _ => true)
    (by decide) (by decide) (by decide) (by decide)
  have h2 := delete_media_file_then_row 1 1 exSys exMediaA (fun _ => false)
    (by decide) (by decide) (by decide) (by decide)
  exact ⟨(h1.1 rfl).1, (h2.2 rfl).1, (h2.2 rfl).2.2⟩

/-- C7: when the raw filename of a supplied file has a lower-cased extension
outside the fixed allow-list, both the REST create and the browser upload
fail with the file-type 400 and return the whole state — database *and*
file store — unchanged: the extension check precedes every disk write. -/
theorem upload_rejects_bad_extension_before_write (uid : Nat) (hex hex2 : String)
    (ra : ApiUploadReq) (w : WebUploadReq) (sa sw : Sys)
    (hfa : ra.hasFile = true) (hna : ra.filename ≠ "")
    (hexta : ALLOWED_EXTENSIONS.contains (toLowerStr (splitextExt ra.filename)) = false)
    (hfw : w.hasFile = true) (hnw : w.filename ≠ "")
    (hextw : ALLOWED_EXTENSIONS.contains (toLowerStr (splitextExt w.filename)) = false) :
    MediaList_post uid hex ra sa = (.error .unsupportedFileType, sa) ∧
    upload_form uid hex2 w sw = (.error .unsupportedFileType, sw) := by
  have hala : allowed_file ra.filename = false := by
    unfold allowed_file
    rw [hexta, Bool.and_false]
  have halw : allowed_file w.filename = false := by
    unfold allowed_file
    rw [hextw, Bool.and_false]
  constructor
  · unfold MediaList_post
    rw [if_neg (by simp [hfa]), if_neg hna, if_neg (by simp [hala])]
  · unfold upload_form
    dsimp only
    rw [if_neg (by simp [hfw]), if_neg hnw, if_pos (by simp [halw])]

/-- Witness for C7: uploading `virus.exe` through either surface fails with
`UnsupportedFileType` and writes nothing. -/
theorem upload_rejects_bad_extension_before_write_witness :
    MediaList_post 1 "beef" exBadExtReq exSys = (.error .unsupportedFileType, exSys) ∧
    upload_form 1 "ffff" exBadExtWeb exSys = (.error .unsupportedFileType, exSys) :=
  upload_rejects_bad_extension_before_write 1 "beef" "ffff" exBadExtReq exBadExtWeb
    exSys exSys (by decide) (by decide) (by decide) (by decide) (by decide) (by decide)

/-- C8 counterexample: the REST create endpoint performs no category
validation.  An authenticated upload with the non-allow-listed category
`bogus` succeeds (201) and creates a Media row carrying that category,
falsifying the claim for API Create calls. -/
theorem api_upload_skips_category_validation :
    valid_categories.contains "bogus" = false ∧
    (MediaList_post 1 "beef" exBadCatReq exSys).1 =
      .ok ⟨4, "T", "", "", "beef.txt", "ebook", "bogus", "", 1⟩ ∧
    (MediaList_post 1 "beef" exBadCatReq exSys).2.dbS.media.length =
      exSys.dbS.media.length + 1 := by
  decide

/-- C8 amended: only the browser upload form validates category and
subcategory — a non-empty value outside the respective allow-list fails
with the validation 400 and leaves the state unchanged — while the REST
create endpoint performs no such validation and always inserts the row
with the category exactly as supplied (defaulted from the file type only
when empty). -/
theorem category_validation_amended (uid : Nat) (hex hex2 : String)
    (w : WebUploadReq) (r : ApiUploadReq) (sw sa : Sys)
    (hfw : w.hasFile = true) (hnw : w.filename ≠ "")
    (halw : allowed_file w.filename = true) (htw : pyStrip w.title ≠ "") :
    ((pyStrip w.category ≠ "" ∧ pyStrip w.category ∉ valid_categories) →
      upload_form uid hex2 w sw = (.error .validationError, sw)) ∧
    ((pyStrip w.category ∈ valid_categories ∨ pyStrip w.category = "") →
      (pyStrip w.subcategory ≠ "" ∧ pyStrip w.subcategory ∉ valid_subcategories) →
      upload_form uid hex2 w sw = (.error .validationError, sw)) ∧
    (r.hasFile = true → r.filename ≠ "" → allowed_file r.filename = true →
      ∃ row : MediaRow, (MediaList_post uid hex r sa).1 = .ok row ∧
        row.category = (if r.category = "" then get_file_type (secure_filename r.filename)
          else r.category) ∧
        (MediaList_post uid hex r sa).2.dbS.media = sa.dbS.media ++ [row]) := by
  refine ⟨?_, ?_, ?_⟩
  · rintro ⟨hc1, hc2⟩
    unfold upload_form
    dsimp only
    rw [if_neg (by simp [hfw]), if_neg hnw, if_neg (by simp [halw]), if_neg htw,
      if_pos ⟨hc1, by simpa using hc2⟩]
  · rintro hcok ⟨hs1, hs2⟩
    have hcneg : ¬(pyStrip w.category ≠ "" ∧
        ¬valid_categories.contains (pyStrip w.category) = true) := by
      rcases hcok with h | h
      · exact fun hc => hc.2 (by simpa using h)
      · exact fun hc => hc.1 h
    unfold upload_form
    dsimp only
    rw [if_neg (by simp [hfw]), if_neg hnw, if_neg (by simp [halw]), if_neg htw,
      if_neg hcneg, if_pos ⟨hs1, by simpa using hs2⟩]
  · intro hfa hna hala
    unfold MediaList_post
    rw [if_neg (by simp [hfa]), if_neg hna, if_pos (by simp [hala])]
    exact ⟨_, rfl, rfl, rfl⟩

/-- Witness for the amended C8 theorem: the browser form rejects category
`bogus` and subcategory `weird`; the REST endpoint accepts category `bogus`
and grows the table by one row. -/
theorem category_validation_amended_witness :
    upload_form 1 "ffff" exBadCatWeb exSys = (.error .validationError, exSys) ∧
    upload_form 1 "ffff" exBadSubWeb exSys = (.error .validationError, exSys) ∧
    (MediaList_post 1 "beef" exBadCatReq exSys).2.dbS.media.length =
      exSys.dbS.media.length + 1 := by
  have h1 := category_validation_amended 1 "beef" "ffff" exBadCatWeb exBadCatReq exSys exSys
    (by decide) (by decide) (by decide) (by decide)
  have h2 := category_validation_amended 1 "beef" "ffff" exBadSubWeb exBadCatReq exSys exSys
    (by decide) (by decide) (by decide) (by decide)
  refine ⟨h1.1 (by decide), h2.2.1 (by decide) (by decide), ?_⟩
  rcases h1.2.2 (by decide) (by decide) (by decide) with ⟨row, _, _, hrow⟩
  rw [hrow]
  simp

/-- C9: the title filter does not implement substring matching.  The `LIKE`
pattern built on `api.py` line 118 is `f"%{title}% "` — with a stray
trailing space inside the pattern — so a media item matches only when the
filter string occurs in its title *and* the title ends with a space.
Concretely: `Sun` is a substring of `Sunset`, yet listing the media of user 1
with the title filter `Sun` returns nothing; retitling the item `Sunset `
(trailing space) makes the same query return it.  The two `sqlLike`
conjuncts isolate the divergence: the pattern the code builds rejects
`Sunset` while the intended `%Sun%` accepts it. -/
theorem media_list_title_filter_bug :
    List.IsInfix "Sun".data "Sunset".data ∧
    MediaList_get 1 { title := "Sun" } exTitleDB = [] ∧
    MediaList_get 1 { title := "Sun" } exTitleSpDB = [exSunsetSp] ∧
    sqlLike ("%" ++ "Sun" ++ "% ") "Sunset" = false ∧
    sqlLike ("%" ++ "Sun" ++ "%") "Sunset" = true := by
  decide

end Medialib
